import Mathlib

/-!
Verification development for the TurboTiler grid-animation engine
(GlyphGrid.js and GridAnimator.js).

The shallow embedding below translates the scheduler, the animation state
machine, the grid layout computation, the avar warp inversion, the axis
sampling and the feature randomisation into Lean definitions.  Randomness
(`Math.random()` draws) is passed in explicitly as oracle data: change
counts and delays become lists of rational delays, coin flips become
boolean functions, cell picks become indices.  Machine timers become an
explicit pending-timer list; firing a timer is an event, and cancelled
timers cannot fire.
-/

namespace TurboTiler

/-! ## Scheduler data (GridAnimator.js, batched glyph-change scheduler) -/

/-- First-occurrence deduplication, the behaviour of
`Array.from(new Set(batch))` in `processGlyphChangeBatchTick`. -/
def jsDedup : List Nat → List Nat
  | [] => []
  | x :: xs => x :: jsDedup (xs.filter (fun y => y ≠ x))
termination_by l => l.length
decreasing_by
  simp only [List.length_cons]
  exact Nat.lt_succ_of_le (List.length_filter_le _ _)

/-- `batches[i].push(v0, v1, ...)`: append `vs` to the `i`-th bucket.
Out-of-range indices leave the bucket list unchanged. -/
def pushAllAt : List (List Nat) → Nat → List Nat → List (List Nat)
  | [], _, _ => []
  | b :: bs, 0, vs => (b ++ vs) :: bs
  | b :: bs, i + 1, vs => b :: pushAllAt bs i vs

/-- Scheduler state: `glyphChangeBatches`, `glyphChangeTickIndex`,
`glyphChangeTotalTicks`, and whether `glyphChangeTimerId` is non-null. -/
structure Sched where
  batches : List (List Nat)
  tickIndex : Nat
  totalTicks : Nat
  timerActive : Bool
deriving DecidableEq

/-- `clearGlyphChangeTimers()`: cancel the interval and reset all
scheduler bookkeeping. -/
def clearGlyphChangeTimers (_s : Sched) : Sched :=
  { batches := [], tickIndex := 0, totalTicks := 0, timerActive := false }

/-- The constant `maxCellUpdatesPerTick = 12`. -/
def maxCellUpdatesPerTick : Nat := 12

/-- The constant `glyphChangeBatchIntervalMs = 50`. -/
def glyphChangeBatchIntervalMs : Nat := 50

/-- `totalTicks = Math.max(1, Math.ceil(duration / tickWidth))`. -/
def totalTicksFor (duration tickWidth : Nat) : Nat :=
  max 1 ((duration + tickWidth - 1) / tickWidth)

/-- `tickIndex = Math.min(totalTicks - 1, Math.floor(delay / tickWidth))`
for one drawn delay. -/
def tickIndexFor (tickWidth totalTicks : Nat) (delay : ℚ) : Nat :=
  min (totalTicks - 1) (⌊delay / (tickWidth : ℚ)⌋).toNat

/-- Inner loop of `scheduleIndividualCellChanges`: push one bucket entry
per drawn delay for the cell `cellIndex`. -/
def scheduleCellChanges (tickWidth totalTicks cellIndex : Nat)
    (delays : List ℚ) (batches : List (List Nat)) : List (List Nat) :=
  delays.foldl
    (fun bs d => pushAllAt bs (tickIndexFor tickWidth totalTicks d) [cellIndex])
    batches

/-- Outer loop of `scheduleIndividualCellChanges`: for each
`cellIndex < cellCount` distribute that cell's drawn delays
(`draws.getD cellIndex []`) over `totalTicks` initially-empty buckets. -/
def buildBatches (cellCount tickWidth totalTicks : Nat)
    (draws : List (List ℚ)) : List (List Nat) :=
  (List.range cellCount).foldl
    (fun bs ci => scheduleCellChanges tickWidth totalTicks ci (draws.getD ci []) bs)
    (List.replicate totalTicks [])

/-- The per-batch work of `processGlyphChangeBatchTick`: deduplicate the
batch, fire at most `maxPer` of the unique indices (skipping indices with
no cell), and keep the rest as overflow. -/
def tickBody (cellCount maxPer : Nat) (batch : List Nat) :
    List Nat × List Nat :=
  let u := jsDedup batch
  let cnt := min maxPer u.length
  ((u.take cnt).filter (fun i => i < cellCount), u.drop cnt)

/-- `processGlyphChangeBatchTick()`: one scheduled batch tick.  Returns the
new scheduler state and the list of cell indices refreshed on this tick
(the calls to `glyphGrid.updateCell`). -/
def processGlyphChangeBatchTick (isPaused : Bool) (cellCount maxPer : Nat)
    (s : Sched) : Sched × List Nat :=
  if s.totalTicks ≤ s.tickIndex then (clearGlyphChangeTimers s, [])
  else
    let batch := s.batches.getD s.tickIndex []
    let step :=
      if isPaused = false ∧ batch ≠ [] then
        let body := tickBody cellCount maxPer batch
        let batches' :=
          if body.2 ≠ [] ∧ s.tickIndex + 1 < s.totalTicks then
            pushAllAt s.batches (s.tickIndex + 1) body.2
          else s.batches
        (batches', body.1)
      else (s.batches, [])
    let s' : Sched :=
      { batches := step.1, tickIndex := s.tickIndex + 1,
        totalTicks := s.totalTicks, timerActive := s.timerActive }
    if s'.totalTicks ≤ s'.tickIndex then (clearGlyphChangeTimers s', step.2)
    else (s', step.2)

/-- `scheduleIndividualCellChanges(duration, settings)`: clear the previous
schedule, bucket every drawn delay, run the first batch synchronously, and
start the periodic interval if ticks remain.  Returns the new scheduler
state and the cells refreshed by the synchronous first tick. -/
def scheduleIndividualCellChanges (isPaused : Bool) (cellCount maxPer : Nat)
    (duration tickWidth : Nat) (draws : List (List ℚ)) (s : Sched) :
    Sched × List Nat :=
  let s0 := clearGlyphChangeTimers s
  if duration = 0 then (s0, [])
  else if cellCount = 0 then (s0, [])
  else
    let totalTicks := totalTicksFor duration tickWidth
    let s1 : Sched :=
      { batches := buildBatches cellCount tickWidth totalTicks draws,
        tickIndex := 0, totalTicks := totalTicks, timerActive := false }
    let r := processGlyphChangeBatchTick isPaused cellCount maxPer s1
    if r.1.tickIndex < r.1.totalTicks then
      ({ batches := r.1.batches, tickIndex := r.1.tickIndex,
         totalTicks := r.1.totalTicks, timerActive := true }, r.2)
    else (r.1, r.2)

/-- Run the periodic interval: keep processing batch ticks while the
interval timer is active (bounded by `fuel`, which callers set to the
total tick count — enough for the scheduler to self-terminate). -/
def tickLoop (cellCount maxPer : Nat) : Nat → Sched → List (List Nat)
  | 0, _ => []
  | fuel + 1, s =>
    if s.timerActive then
      let r := processGlyphChangeBatchTick false cellCount maxPer s
      r.2 :: tickLoop cellCount maxPer fuel r.1
    else []

/-- A full unpaused scheduler phase: `scheduleIndividualCellChanges`
followed by processing every remaining tick.  Yields the per-tick lists of
refreshed cell indices. -/
def runSchedule (cellCount duration : Nat) (draws : List (List ℚ)) :
    List (List Nat) :=
  let r := scheduleIndividualCellChanges false cellCount maxCellUpdatesPerTick
    duration glyphChangeBatchIntervalMs draws
    { batches := [], tickIndex := 0, totalTicks := 0, timerActive := false }
  r.2 :: tickLoop cellCount maxCellUpdatesPerTick r.1.totalTicks r.1

/-- The change count originally drawn for a cell: the number of delays the
randomness oracle assigned to it (cells beyond `cellCount` draw nothing). -/
def drawnCount (cellCount : Nat) (draws : List (List ℚ)) (c : Nat) : Nat :=
  if c < cellCount then (draws.getD c []).length else 0

/-- Bucket entries for cell `c` not yet consumed: the count of `c` over the
buckets from the current tick index on. -/
def remainingCount (c : Nat) (s : Sched) : Nat :=
  ((s.batches.drop s.tickIndex).flatten).count c

/-! ## Animation state machine (GridAnimator.js) -/

/-- The three animation states of `this.states`. -/
inductive AnimState
  | zoomIn
  | dwell
  | zoomOut
deriving DecidableEq

/-- The fixed transition order of `scheduleNextCycle`:
`ZOOM_OUT → ZOOM_IN → DWELL → ZOOM_OUT`. -/
def nextAnimState : AnimState → AnimState
  | AnimState.zoomOut => AnimState.zoomIn
  | AnimState.zoomIn => AnimState.dwell
  | AnimState.dwell => AnimState.zoomOut

/-- The distinct `setTimeout` callbacks pushed onto
`stateTransitionTimers`: the initial 500 ms hold from `start()`, the
completion timers of `startZoomIn`, `startDwell` and `startZoomOut`, and
the nested dwell-out timer of `startZoomOut`. -/
inductive TimerKind
  | initialHold
  | zoomInDone
  | dwellDone
  | zoomOutDone
  | dwellOutDone
deriving DecidableEq

/-- Machine state of a `GridAnimator`: current animation state, pause
flag, loop flag, the pending state-transition timers, the glyph-change
scheduler state, and the grid's cell count. -/
structure GAMachine where
  currentState : AnimState
  isPaused : Bool
  loopEnabled : Bool
  pending : List TimerKind
  sched : Sched
  cellCount : Nat
deriving DecidableEq

/-- `timing.zoomIn = 6000` ms (likewise `timing.zoomOut`). -/
def timingZoom : Nat := 6000

/-- `timing.dwellOut = 1000` ms. -/
def timingDwellOut : Nat := 1000

/-- Run `scheduleIndividualCellChanges` on the machine's scheduler. -/
def schedChanges (m : GAMachine) (duration : Nat) (draws : List (List ℚ)) :
    GAMachine × List Nat :=
  let r := scheduleIndividualCellChanges m.isPaused m.cellCount
    maxCellUpdatesPerTick duration glyphChangeBatchIntervalMs draws m.sched
  ({ m with sched := r.1 }, r.2)

/-- `startDwell()`: schedule only the dwell-completion timer. -/
def startDwell (m : GAMachine) : GAMachine :=
  { m with pending := m.pending ++ [TimerKind.dwellDone] }

/-- `startZoomOut()`: set the state to `ZOOM_OUT`, schedule glyph changes
for `timing.zoomOut - 500`, and schedule the completion timer.  (The
transform write is modelled separately by `applyZoomTransform`.) -/
def startZoomOut (m : GAMachine) (draws : List (List ℚ)) :
    GAMachine × List Nat :=
  let m0 := { m with currentState := AnimState.zoomOut }
  let r := schedChanges m0 (timingZoom - 500) draws
  ({ r.1 with pending := r.1.pending ++ [TimerKind.zoomOutDone] }, r.2)

/-- `startZoomIn()`: schedule glyph changes for `timing.zoomIn - 500` and
the completion timer.  (Target pick and transform are modelled by
`pickRandomTarget` / `applyZoomTransform` separately.) -/
def startZoomIn (m : GAMachine) (draws : List (List ℚ)) :
    GAMachine × List Nat :=
  let r := schedChanges m (timingZoom - 500) draws
  ({ r.1 with pending := r.1.pending ++ [TimerKind.zoomInDone] }, r.2)

/-- `scheduleNextCycle()`: advance to the next state of the cycle and run
its entry action.  Returns the new machine, the phase entered (if any),
and the cells refreshed synchronously by entry-time scheduling. -/
def scheduleNextCycle (m : GAMachine) (draws : List (List ℚ)) :
    GAMachine × List AnimState × List Nat :=
  if m.isPaused then (m, [], [])
  else if m.loopEnabled = false ∧ m.currentState = AnimState.zoomOut then
    (m, [], [])
  else
    match m.currentState with
    | AnimState.zoomOut =>
      let m1 := { m with currentState := AnimState.zoomIn }
      let r := startZoomIn m1 draws
      (r.1, [AnimState.zoomIn], r.2)
    | AnimState.zoomIn =>
      let m1 := { m with currentState := AnimState.dwell }
      (startDwell m1, [AnimState.dwell], [])
    | AnimState.dwell =>
      let m1 := { m with currentState := AnimState.zoomOut }
      let r := startZoomOut m1 draws
      (r.1, [AnimState.zoomOut], r.2)

/-- One pending state-transition timer fires.  A timer that is not
pending (because it was cancelled) is a no-op; every callback re-checks
`isPaused` before acting. -/
def fireTimer (m : GAMachine) (k : TimerKind) (draws : List (List ℚ)) :
    GAMachine × List AnimState × List Nat :=
  if k ∈ m.pending then
    let m0 := { m with pending := m.pending.erase k }
    if m0.isPaused then (m0, [], [])
    else
      match k with
      | TimerKind.initialHold =>
        let r := startZoomOut m0 draws
        (r.1, [AnimState.zoomOut], r.2)
      | TimerKind.zoomInDone => scheduleNextCycle m0 draws
      | TimerKind.dwellDone => scheduleNextCycle m0 draws
      | TimerKind.zoomOutDone =>
        if m0.loopEnabled then
          let r := schedChanges m0 timingDwellOut draws
          ({ r.1 with pending := r.1.pending ++ [TimerKind.dwellOutDone] },
            [], r.2)
        else (m0, [], [])
      | TimerKind.dwellOutDone => scheduleNextCycle m0 draws
  else (m, [], [])

/-- External events driving a `GridAnimator`: a pending state-transition
timer firing (with the randomness oracle its callback will consume), a
scheduler interval tick, `pause()`, and `resume()`. -/
inductive GAEvent
  | fire (k : TimerKind) (draws : List (List ℚ))
  | tick
  | pauseEv
  | resumeEv (draws : List (List ℚ))

/-- One machine step per event.  `pause()` sets the flag and cancels the
glyph-change interval and every state-transition timer together;
`resume()` restarts via `scheduleNextCycle`; the interval tick processes
one batch (only while the interval is active). -/
def gaStep (m : GAMachine) : GAEvent → GAMachine × List AnimState × List Nat
  | GAEvent.fire k draws => fireTimer m k draws
  | GAEvent.tick =>
    if m.sched.timerActive then
      let r := processGlyphChangeBatchTick m.isPaused m.cellCount
        maxCellUpdatesPerTick m.sched
      ({ m with sched := r.1 }, [], r.2)
    else (m, [], [])
  | GAEvent.pauseEv =>
    let s0 := clearGlyphChangeTimers m.sched
    ({ m with isPaused := true, sched := s0, pending := [] }, [], [])
  | GAEvent.resumeEv draws =>
    if m.isPaused then scheduleNextCycle { m with isPaused := false } draws
    else (m, [], [])

/-- Run a list of events, collecting the phases entered and the cells
refreshed along the way. -/
def gaRun (m : GAMachine) : List GAEvent → GAMachine × List AnimState × List Nat
  | [] => (m, [], [])
  | e :: evs =>
    let r1 := gaStep m e
    let r2 := gaRun r1.1 evs
    (r2.1, r1.2.1 ++ r2.2.1, r1.2.2 ++ r2.2.2)

/-! ## Zoom targeting and transform (GridAnimator.js) -/

/-- The result of `getCellInfoByIndex`: cell centre position and cell
geometry, in unscaled grid space. -/
structure CellInfo where
  x : ℚ
  y : ℚ
  cellWidth : ℚ
  cellHeight : ℚ
deriving DecidableEq

/-- `getRandomCell()`: `null` on an empty grid, otherwise the info of the
randomly drawn index. -/
def getRandomCell (cells : List CellInfo) (idx : Nat) : Option CellInfo :=
  if cells.length = 0 then none else cells.get? idx

/-- A zoom target: offsets from the viewport centre plus the chosen
cell's geometry. -/
structure ZoomTarget where
  x : ℚ
  y : ℚ
  cellWidth : ℚ
  cellHeight : ℚ
deriving DecidableEq

/-- `pickRandomTarget()`: `{x:0, y:0, cellWidth:0, cellHeight:0}` when the
grid has no cells, otherwise the offset of the chosen cell from the
viewport centre. -/
def pickRandomTarget (viewportWidth viewportHeight : ℚ)
    (cellInfo : Option CellInfo) : ZoomTarget :=
  match cellInfo with
  | none => { x := 0, y := 0, cellWidth := 0, cellHeight := 0 }
  | some ci =>
    { x := ci.x - viewportWidth / 2, y := ci.y - viewportHeight / 2,
      cellWidth := ci.cellWidth, cellHeight := ci.cellHeight }

/-- `zoomScale.min = 0.12`. -/
def zoomScaleMin : ℚ := 12 / 100

/-- `zoomScale.max = 1.0`. -/
def zoomScaleMax : ℚ := 1

/-- `calculateCellFitScale(target)`: falls back to `zoomScale.max` when the
target has falsy (zero) cell geometry, else width-fit times 0.80. -/
def calculateCellFitScale (viewportWidth : ℚ) (target : ZoomTarget) : ℚ :=
  if target.cellWidth = 0 ∨ target.cellHeight = 0 then zoomScaleMax
  else viewportWidth / target.cellWidth * (80 / 100)

/-- The affine transform written to `zoomContainer.style.transform`. -/
structure Transform where
  translateX : ℚ
  translateY : ℚ
  scale : ℚ
deriving DecidableEq

/-- `applyZoomTransform(targetX, targetY, scale)`:
`translate3d(-(targetX*scale), -(targetY*scale), 0) scale3d(scale, scale, 1)`. -/
def applyZoomTransform (targetX targetY scale : ℚ) : Transform :=
  { translateX := -(targetX * scale), translateY := -(targetY * scale),
    scale := scale }

/-! ## Grid layout (GlyphGrid.js, populate) -/

/-- `cellWidthFactor = 0.5`. -/
def cellWidthFactor : ℚ := 1 / 2

/-- `cellHeightFactor = 0.6`. -/
def cellHeightFactor : ℚ := 3 / 5

/-- `minCoverageFactor = 1.06`. -/
def minCoverageFactor : ℚ := 106 / 100

/-- `overscanCells = 1`. -/
def overscanCells : ℤ := 1

/-- `minGridCols = 13`. -/
def minGridCols : ℤ := 13

/-- `minGridRows = 13`. -/
def minGridRows : ℤ := 13

/-- `requiredCols = Math.ceil(minCoverageFactor / (zoomOutScale * cellWidthFactor))`. -/
def requiredColsFor (zoomOutScale : ℚ) : ℤ :=
  ⌈minCoverageFactor / (zoomOutScale * cellWidthFactor)⌉

/-- `requiredRows = Math.ceil(minCoverageFactor / (zoomOutScale * cellHeightFactor))`. -/
def requiredRowsFor (zoomOutScale : ℚ) : ℤ :=
  ⌈minCoverageFactor / (zoomOutScale * cellHeightFactor)⌉

/-- Clamp to the minimum and force odd by incrementing when even. -/
def forceOddMin (minDim required : ℤ) : ℤ :=
  let d := max minDim (required + overscanCells)
  if d % 2 = 0 then d + 1 else d

/-- The grid produced by `populate()`: dimensions, cell geometry, container
geometry, and one entry per created cell. -/
structure GridResult where
  gridCols : ℤ
  gridRows : ℤ
  cellWidth : ℚ
  cellHeight : ℚ
  containerWidth : ℚ
  containerHeight : ℚ
  cellCount : ℤ
  cells : List Unit
deriving DecidableEq

/-- The deterministic layout part of `populate(container, glyphList, axes,
features, fontFamily, font, zoomOutScale)`: grid dimensions from the
zoomed-out scale, cell sizes as fixed fractions of the viewport, container
sizes as grid size times cell size, and `gridCols * gridRows` created
cells. -/
def populate (viewportWidth viewportHeight zoomOutScale : ℚ) : GridResult :=
  let gridCols := forceOddMin minGridCols (requiredColsFor zoomOutScale)
  let gridRows := forceOddMin minGridRows (requiredRowsFor zoomOutScale)
  let cellWidth := viewportWidth * cellWidthFactor
  let cellHeight := viewportHeight * cellHeightFactor
  let cellCount := gridCols * gridRows
  { gridCols := gridCols, gridRows := gridRows,
    cellWidth := cellWidth, cellHeight := cellHeight,
    containerWidth := gridCols * cellWidth,
    containerHeight := gridRows * cellHeight,
    cellCount := cellCount,
    cells := List.replicate cellCount.toNat () }

/-! ## Avar inversion and axis sampling (GlyphGrid.js) -/

/-- `Math.max(-1, Math.min(1, x))`. -/
def clampUnit (x : ℚ) : ℚ := max (-1) (min 1 x)

/-- The `1e-9` degenerate-interval threshold in `invertAvar`. -/
def avarEpsilon : ℚ := 1 / 1000000000

/-- The bracketing-interval scan of `invertAvar`: walk consecutive pairs,
skip intervals whose output range misses the target, return the lower
input on a degenerate output span, otherwise linearly invert. -/
def invertAvarScan (target : ℚ) : ℚ × ℚ → List (ℚ × ℚ) → Option ℚ
  | _, [] => none
  | prev, current :: rest =>
    let minTo := min prev.2 current.2
    let maxTo := max prev.2 current.2
    if target < minTo ∨ maxTo < target then
      invertAvarScan target current rest
    else if |current.2 - prev.2| < avarEpsilon then some prev.1
    else
      some (clampUnit
        (prev.1 + (target - prev.2) / (current.2 - prev.2) * (current.1 - prev.1)))

/-- `invertAvar(pairs, targetToCoordinate)`: clamp the target, scan for a
bracketing interval by output value and invert it linearly; with fewer
than two pairs return the clamped target; if no interval matches, clamp
to the endpoint nearest by output distance. -/
def invertAvar (pairs : List (ℚ × ℚ)) (targetToCoordinate : ℚ) : ℚ :=
  match pairs with
  | [] => clampUnit targetToCoordinate
  | [_] => clampUnit targetToCoordinate
  | p0 :: p1 :: rest =>
    let clampedTarget := clampUnit targetToCoordinate
    match invertAvarScan clampedTarget p0 (p1 :: rest) with
    | some v => v
    | none =>
      let first := p0
      let last := List.getLastD (p1 :: rest) p0
      let nearest :=
        if |clampedTarget - first.2| ≤ |clampedTarget - last.2| then first
        else last
      clampUnit nearest.1

/-- A variation axis `{tag, minValue, defaultValue, maxValue}`. -/
structure Axis where
  tag : String
  minValue : ℚ
  defaultValue : ℚ
  maxValue : ℚ
deriving DecidableEq

/-- Sampler metadata built by `createAxisSamplers` for one axis. -/
structure AxisSampler where
  tag : String
  hasNonLinearAvar : Bool
  avarPairs : List (ℚ × ℚ)
deriving DecidableEq

/-- `normalizedToAxisValue(normalizedValue, axis)`: clamp to `[-1,1]`,
scale negatives between default and min, non-negatives between default
and max. -/
def normalizedToAxisValue (normalizedValue : ℚ) (axis : Axis) : ℚ :=
  let clamped := clampUnit normalizedValue
  if clamped < 0 then
    axis.defaultValue + clamped * (axis.defaultValue - axis.minValue)
  else
    axis.defaultValue + clamped * (axis.maxValue - axis.defaultValue)

/-- `sampleAxisValue(axis)` with the uniform draw `r ∈ [0,1]` made
explicit: uniform in `[min,max]` without a usable non-linear avar map,
otherwise invert the warp at the uniformly drawn warped coordinate
`-1 + 2r` and map back to user units. -/
def sampleAxisValue (samplers : List AxisSampler) (axis : Axis) (r : ℚ) : ℚ :=
  match samplers.find? (fun s => s.tag == axis.tag) with
  | some sampler =>
    if sampler.hasNonLinearAvar = false ∨ sampler.avarPairs.length < 2 then
      axis.minValue + r * (axis.maxValue - axis.minValue)
    else
      normalizedToAxisValue
        (invertAvar sampler.avarPairs (-1 + r * 2)) axis
  | none => axis.minValue + r * (axis.maxValue - axis.minValue)

/-! ## Feature randomisation (GlyphGrid.js) -/

/-- The keyword alternatives of the discretionary-feature pattern. -/
def discretionaryKeywords : List String :=
  ["case", "ordn", "smcp", "sinf", "sups", "subs", "pnum", "tnum", "onum",
   "lnum", "zero"]

/-- The test of
`/^(ss\d\d|cv\d\d|case|ordn|smcp|sinf|sups|subs|pnum|tnum|onum|lnum|zero)$/`. -/
def isDiscretionaryFeature (f : String) : Bool :=
  discretionaryKeywords.contains f ||
  (match f.toList with
   | [a, b, c, d] =>
     ((a == 's' && b == 's') || (a == 'c' && b == 'v')) && c.isDigit && d.isDigit
   | _ => false)

/-- One `"${feature}" ${enabled}` entry of the settings string. -/
def featureEntry (f : String) (enabled : Bool) : String :=
  "\"" ++ f ++ "\" " ++ (if enabled then "1" else "0")

/-- The `map` over randomizable features, with the per-feature coin flips
(`Math.random() > 0.5`) made explicit and indexed by position. -/
def settingsEntriesAux (coins : Nat → Bool) : Nat → List String → List String
  | _, [] => []
  | i, f :: fs => featureEntry f (coins i) :: settingsEntriesAux coins (i + 1) fs

/-- The settings entries built by `randomizeFeatures` from the filtered
discretionary features. -/
def settingsEntries (features : List String) (coins : Nat → Bool) :
    List String :=
  settingsEntriesAux coins 0 (features.filter (fun f => isDiscretionaryFeature f))

/-- `randomizeFeatures()`: empty string for an empty feature list,
`'normal'` when no feature is discretionary, otherwise the joined
entries. -/
def randomizeFeatures (features : List String) (coins : Nat → Bool) : String :=
  if features.isEmpty then ""
  else if (features.filter (fun f => isDiscretionaryFeature f)).isEmpty then
    "normal"
  else String.intercalate ", " (settingsEntries features coins)

/-! ## Helper lemmas: deduplication -/

theorem jsDedup_mem {c : Nat} : ∀ {l : List Nat}, c ∈ jsDedup l ↔ c ∈ l := by
  intro l
  induction l using jsDedup.induct with
  | case1 => simp [jsDedup]
  | case2 x xs ih =>
    rw [jsDedup]
    by_cases hc : c = x
    · subst hc; simp
    · simp only [List.mem_cons, ih, List.mem_filter, decide_eq_true_eq]
      constructor
      · rintro (h | ⟨h, _⟩)
        · exact Or.inl h
        · exact Or.inr h
      · rintro (h | h)
        · exact Or.inl h
        · exact Or.inr ⟨h, hc⟩

theorem jsDedup_nodup : ∀ (l : List Nat), (jsDedup l).Nodup := by
  intro l
  induction l using jsDedup.induct with
  | case1 => simp [jsDedup]
  | case2 x xs ih =>
    rw [jsDedup]
    refine List.nodup_cons.mpr ⟨?_, ih⟩
    intro hmem
    have := jsDedup_mem.mp hmem
    simp at this

theorem jsDedup_count_le_one (l : List Nat) (c : Nat) :
    (jsDedup l).count c ≤ 1 :=
  List.nodup_iff_count_le_one.mp (jsDedup_nodup l) c

theorem jsDedup_count_le (l : List Nat) (c : Nat) :
    (jsDedup l).count c ≤ l.count c := by
  by_cases h : c ∈ l
  · exact le_trans (jsDedup_count_le_one l c) (List.count_pos_iff.mpr h)
  · have : c ∉ jsDedup l := fun hc => h (jsDedup_mem.mp hc)
    simp [List.count_eq_zero_of_not_mem this]

/-! ## Helper lemmas: bucket pushes -/

theorem pushAllAt_length : ∀ (l : List (List Nat)) (i : Nat) (vs : List Nat),
    (pushAllAt l i vs).length = l.length := by
  intro l
  induction l with
  | nil => intro i vs; simp [pushAllAt]
  | cons b bs ih =>
    intro i vs
    cases i with
    | zero => simp [pushAllAt]
    | succ j => simp [pushAllAt, ih]

theorem pushAllAt_flatten_count (c : Nat) :
    ∀ (l : List (List Nat)) (i : Nat) (vs : List Nat),
    ((pushAllAt l i vs).flatten).count c =
      l.flatten.count c + (if i < l.length then vs.count c else 0) := by
  intro l
  induction l with
  | nil => intro i vs; simp [pushAllAt]
  | cons b bs ih =>
    intro i vs
    cases i with
    | zero => simp [pushAllAt, List.count_append]; omega
    | succ j =>
      simp only [pushAllAt, List.flatten_cons, List.count_append, ih,
        List.length_cons]
      have : j + 1 < bs.length + 1 ↔ j < bs.length := by omega
      rw [if_congr this rfl rfl]
      omega

theorem pushAllAt_drop : ∀ (l : List (List Nat)) (i : Nat) (vs : List Nat),
    i < l.length →
    (pushAllAt l i vs).drop i = ((l.getD i []) ++ vs) :: l.drop (i + 1) := by
  intro l
  induction l with
  | nil => intro i vs h; simp at h
  | cons b bs ih =>
    intro i vs h
    cases i with
    | zero => simp [pushAllAt]
    | succ j =>
      simp only [pushAllAt, List.drop_succ_cons, List.getD_cons_succ]
      exact ih j vs (by simpa using h)

/-! ## Helper lemmas: scheduling-time bucket counts -/

theorem tickIndexFor_lt (tickWidth totalTicks : Nat) (d : ℚ)
    (h : 1 ≤ totalTicks) : tickIndexFor tickWidth totalTicks d < totalTicks := by
  have : min (totalTicks - 1) (⌊d / (tickWidth : ℚ)⌋).toNat ≤ totalTicks - 1 :=
    min_le_left _ _
  unfold tickIndexFor
  omega

theorem scheduleCellChanges_length :
    ∀ (delays : List ℚ) (tw tt ci : Nat) (bs : List (List Nat)),
    (scheduleCellChanges tw tt ci delays bs).length = bs.length := by
  intro delays
  induction delays with
  | nil => intro tw tt ci bs; simp [scheduleCellChanges]
  | cons d ds ih =>
    intro tw tt ci bs
    simp only [scheduleCellChanges, List.foldl_cons]
    rw [show ∀ bs', List.foldl
      (fun bs d => pushAllAt bs (tickIndexFor tw tt d) [ci]) bs' ds =
      scheduleCellChanges tw tt ci ds bs' from fun _ => rfl]
    rw [ih, pushAllAt_length]

theorem scheduleCellChanges_count (c : Nat) :
    ∀ (delays : List ℚ) (tw tt ci : Nat) (bs : List (List Nat)),
    bs.length = tt → 1 ≤ tt →
    (scheduleCellChanges tw tt ci delays bs).flatten.count c =
      bs.flatten.count c + (if ci = c then delays.length else 0) := by
  intro delays
  induction delays with
  | nil => intro tw tt ci bs _ _; simp [scheduleCellChanges]
  | cons d ds ih =>
    intro tw tt ci bs hlen htt
    simp only [scheduleCellChanges, List.foldl_cons]
    rw [show ∀ bs', List.foldl
      (fun bs d => pushAllAt bs (tickIndexFor tw tt d) [ci]) bs' ds =
      scheduleCellChanges tw tt ci ds bs' from fun _ => rfl]
    rw [ih tw tt ci _ (by rw [pushAllAt_length]; exact hlen) htt]
    rw [pushAllAt_flatten_count]
    have hin : tickIndexFor tw tt d < bs.length := by
      rw [hlen]; exact tickIndexFor_lt tw tt d htt
    rw [if_pos hin]
    have : List.count c [ci] = if ci = c then 1 else 0 := by
      rcases eq_or_ne ci c with h | h
      · subst h; simp
      · simp [List.count_cons, Ne.symm h, h]
    rw [this]
    split_ifs with h
    · simp only [List.length_cons]; omega
    · omega

theorem buildBatches_step (cc tw tt : Nat) (draws : List (List ℚ)) :
    buildBatches (cc + 1) tw tt draws =
      scheduleCellChanges tw tt cc (draws.getD cc [])
        (buildBatches cc tw tt draws) := by
  unfold buildBatches
  rw [List.range_succ, List.foldl_append, List.foldl_cons, List.foldl_nil]

theorem buildBatches_length (tw tt : Nat) (draws : List (List ℚ)) :
    ∀ cc, (buildBatches cc tw tt draws).length = tt := by
  intro cc
  induction cc with
  | zero => simp [buildBatches]
  | succ n ih => rw [buildBatches_step, scheduleCellChanges_length, ih]

theorem buildBatches_count (tw tt : Nat) (draws : List (List ℚ)) (c : Nat)
    (htt : 1 ≤ tt) :
    ∀ cc, (buildBatches cc tw tt draws).flatten.count c =
      drawnCount cc draws c := by
  intro cc
  induction cc with
  | zero =>
    have : ∀ n, (List.replicate n ([] : List Nat)).flatten = [] := by
      intro n
      induction n with
      | zero => simp
      | succ k ihk => simp [List.replicate_succ, ihk]
    simp [buildBatches, drawnCount, this]
  | succ n ih =>
    rw [buildBatches_step,
      scheduleCellChanges_count c _ tw tt n _ (buildBatches_length tw tt draws n) htt,
      ih]
    unfold drawnCount
    by_cases h2 : n = c
    · subst h2
      rw [if_neg (lt_irrefl n), if_pos rfl, if_pos (Nat.lt_succ_self n)]
      simp
    · rw [if_neg h2]
      by_cases h1 : c < n
      · rw [if_pos h1, if_pos (by omega)]; simp
      · rw [if_neg h1, if_neg (by omega)]

/-! ## Helper lemmas: batch ticks -/

theorem tickBody_count (cc mp c : Nat) (batch : List Nat) :
    ((tickBody cc mp batch).1).count c + ((tickBody cc mp batch).2).count c ≤
      batch.count c := by
  unfold tickBody
  have h1 : ((jsDedup batch).take (min mp (jsDedup batch).length)).count c +
      ((jsDedup batch).drop (min mp (jsDedup batch).length)).count c =
      (jsDedup batch).count c := by
    rw [← List.count_append, List.take_append_drop]
  have h2 : (((jsDedup batch).take (min mp (jsDedup batch).length)).filter
      (fun i => decide (i < cc))).count c ≤
      ((jsDedup batch).take (min mp (jsDedup batch).length)).count c :=
    (List.filter_sublist _).count_le c
  have h3 := jsDedup_count_le batch c
  simp only
  omega

theorem tickBody_fired_length (cc mp : Nat) (batch : List Nat) :
    ((tickBody cc mp batch).1).length ≤ mp := by
  unfold tickBody
  have h1 : (((jsDedup batch).take (min mp (jsDedup batch).length)).filter
      (fun i => decide (i < cc))).length ≤
      ((jsDedup batch).take (min mp (jsDedup batch).length)).length :=
    List.length_filter_le _ _
  have h2 : ((jsDedup batch).take (min mp (jsDedup batch).length)).length ≤
      min mp (jsDedup batch).length := by
    simp [List.length_take]
  have h3 : min mp (jsDedup batch).length ≤ mp := min_le_left _ _
  simp only
  omega

theorem tickBody_fired_nodup (cc mp : Nat) (batch : List Nat) :
    ((tickBody cc mp batch).1).Nodup := by
  unfold tickBody
  exact List.Nodup.filter _
    (List.Nodup.sublist (List.take_sublist _ _) (jsDedup_nodup batch))

theorem drop_flatten_count_succ_le (c : Nat) (l : List (List Nat)) (i : Nat) :
    ((l.drop (i + 1)).flatten).count c ≤ ((l.drop i).flatten).count c := by
  by_cases h : i < l.length
  · rw [List.drop_eq_getElem_cons h, List.flatten_cons, List.count_append]
    omega
  · rw [List.drop_eq_nil_of_le (by omega), List.drop_eq_nil_of_le (by omega)]

theorem getD_count_add (c : Nat) (l : List (List Nat)) (i : Nat)
    (h : i < l.length) :
    ((l.drop i).flatten).count c =
      (l.getD i []).count c + ((l.drop (i + 1)).flatten).count c := by
  rw [List.drop_eq_getElem_cons h, List.flatten_cons, List.count_append,
    List.getD_eq_getElem l [] h]

theorem pushAllAt_of_le : ∀ (l : List (List Nat)) (i : Nat) (vs : List Nat),
    l.length ≤ i → pushAllAt l i vs = l := by
  intro l
  induction l with
  | nil => intro i vs _; cases i with
    | zero => rfl
    | succ j => rfl
  | cons b bs ih =>
    intro i vs h
    cases i with
    | zero => simp at h
    | succ j =>
      simp only [pushAllAt]
      rw [ih j vs (by simpa using h)]

theorem pushAllAt_drop_count_le (c : Nat) (l : List (List Nat)) (i : Nat)
    (vs : List Nat) :
    (((pushAllAt l i vs).drop i).flatten).count c ≤
      ((l.drop i).flatten).count c + vs.count c := by
  by_cases h : i < l.length
  · rw [pushAllAt_drop l i vs h, List.flatten_cons, List.count_append,
      List.count_append, getD_count_add c l i h]
    omega
  · rw [pushAllAt_of_le l i vs (by omega)]
    omega

theorem remainingCount_clear (c : Nat) (s : Sched) :
    remainingCount c (clearGlyphChangeTimers s) = 0 := by
  simp [remainingCount, clearGlyphChangeTimers]

theorem getD_eq_nil_of_le (l : List (List Nat)) (i : Nat)
    (h : l.length ≤ i) : l.getD i [] = [] := by
  unfold List.getD
  rw [List.get?_eq_none.mpr h]
  rfl

/-- Token conservation of one batch tick: the refreshes fired for a cell
plus the entries still pending afterwards never exceed the entries that
were pending before. -/
theorem processGlyphChangeBatchTick_conserve (p : Bool) (cc mp c : Nat)
    (s : Sched) :
    ((processGlyphChangeBatchTick p cc mp s).2).count c +
      remainingCount c (processGlyphChangeBatchTick p cc mp s).1 ≤
      remainingCount c s := by
  unfold processGlyphChangeBatchTick
  by_cases h0 : s.totalTicks ≤ s.tickIndex
  · rw [if_pos h0]
    simp [remainingCount_clear]
  · rw [if_neg h0]
    simp only
    by_cases hact : p = false ∧ s.batches.getD s.tickIndex [] ≠ []
    · rw [if_pos hact]
      have hti : s.tickIndex < s.batches.length := by
        by_contra hc
        exact hact.2 (getD_eq_nil_of_le s.batches s.tickIndex (by omega))
      have hsplit := getD_count_add c s.batches s.tickIndex hti
      have hbody := tickBody_count cc mp c (s.batches.getD s.tickIndex [])
      by_cases hpush : (tickBody cc mp (s.batches.getD s.tickIndex [])).2 ≠ [] ∧
          s.tickIndex + 1 < s.totalTicks
      · rw [if_pos hpush]
        rw [if_neg (show ¬ s.totalTicks ≤ s.tickIndex + 1 by omega)]
        dsimp only
        have hp := pushAllAt_drop_count_le c s.batches (s.tickIndex + 1)
          (tickBody cc mp (s.batches.getD s.tickIndex [])).2
        unfold remainingCount
        dsimp only
        omega
      · rw [if_neg hpush]
        by_cases hclear : s.totalTicks ≤ s.tickIndex + 1
        · rw [if_pos hclear]
          dsimp only
          rw [remainingCount_clear]
          unfold remainingCount
          omega
        · rw [if_neg hclear]
          dsimp only
          unfold remainingCount
          dsimp only
          omega
    · rw [if_neg hact]
      by_cases hclear : s.totalTicks ≤ s.tickIndex + 1
      · rw [if_pos hclear]
        dsimp only
        rw [remainingCount_clear]
        simp
      · rw [if_neg hclear]
        dsimp only
        unfold remainingCount
        dsimp only
        simp only [List.count_nil]
        have := drop_flatten_count_succ_le c s.batches s.tickIndex
        omega

/-- Every batch tick refreshes at most `maxPer` distinct cells. -/
theorem processGlyphChangeBatchTick_fired (p : Bool) (cc mp : Nat)
    (s : Sched) :
    ((processGlyphChangeBatchTick p cc mp s).2).length ≤ mp ∧
      ((processGlyphChangeBatchTick p cc mp s).2).Nodup := by
  unfold processGlyphChangeBatchTick
  by_cases h0 : s.totalTicks ≤ s.tickIndex
  · rw [if_pos h0]
    simp
  · rw [if_neg h0]
    simp only
    by_cases hact : p = false ∧ s.batches.getD s.tickIndex [] ≠ []
    · rw [if_pos hact]
      by_cases hclear : s.totalTicks ≤ s.tickIndex + 1
      · rw [if_pos hclear]
        exact ⟨tickBody_fired_length _ _ _, tickBody_fired_nodup _ _ _⟩
      · rw [if_neg hclear]
        exact ⟨tickBody_fired_length _ _ _, tickBody_fired_nodup _ _ _⟩
    · rw [if_neg hact]
      by_cases hclear : s.totalTicks ≤ s.tickIndex + 1
      · rw [if_pos hclear]
        simp
      · rw [if_neg hclear]
        simp

theorem tickLoop_conserve (cc mp c : Nat) :
    ∀ (fuel : Nat) (s : Sched),
    ((tickLoop cc mp fuel s).flatten).count c ≤ remainingCount c s := by
  intro fuel
  induction fuel with
  | zero => intro s; simp [tickLoop, remainingCount]
  | succ n ih =>
    intro s
    unfold tickLoop
    by_cases h : s.timerActive
    · rw [if_pos h]
      simp only [List.flatten_cons, List.count_append]
      have h1 := ih (processGlyphChangeBatchTick false cc mp s).1
      have h2 := processGlyphChangeBatchTick_conserve false cc mp c s
      omega
    · rw [if_neg h]
      simp [remainingCount]

theorem tickLoop_per_tick (cc mp : Nat) :
    ∀ (fuel : Nat) (s : Sched) (l : List Nat), l ∈ tickLoop cc mp fuel s →
    l.length ≤ mp ∧ l.Nodup := by
  intro fuel
  induction fuel with
  | zero => intro s l h; simp [tickLoop] at h
  | succ n ih =>
    intro s l h
    unfold tickLoop at h
    by_cases ha : s.timerActive
    · rw [if_pos ha] at h
      rcases List.mem_cons.mp h with h1 | h1
      · subst h1
        exact processGlyphChangeBatchTick_fired false cc mp s
      · exact ih _ l h1
    · rw [if_neg ha] at h
      simp at h

theorem remainingCount_timerActive (c : Nat) (s : Sched) (b : Bool) :
    remainingCount c { s with timerActive := b } = remainingCount c s := rfl

/-- Delivered refreshes over a whole scheduler phase never exceed the
drawn change counts. -/
theorem runSchedule_count_le (cc duration : Nat) (draws : List (List ℚ))
    (c : Nat) :
    ((runSchedule cc duration draws).flatten).count c ≤
      drawnCount cc draws c := by
  unfold runSchedule scheduleIndividualCellChanges
  by_cases hd : duration = 0
  · rw [if_pos hd]
    simp [clearGlyphChangeTimers, tickLoop]
  · rw [if_neg hd]
    by_cases hcc : cc = 0
    · rw [if_pos hcc]
      simp [clearGlyphChangeTimers, tickLoop]
    · rw [if_neg hcc]
      simp only [List.flatten_cons, List.count_append]
      set s1 : Sched :=
        { batches := buildBatches cc glyphChangeBatchIntervalMs
            (totalTicksFor duration glyphChangeBatchIntervalMs) draws,
          tickIndex := 0,
          totalTicks := totalTicksFor duration glyphChangeBatchIntervalMs,
          timerActive := false } with hs1
      have hrem : remainingCount c s1 = drawnCount cc draws c := by
        rw [hs1]
        unfold remainingCount
        simp only [List.drop_zero]
        exact buildBatches_count glyphChangeBatchIntervalMs _ draws c
          (le_max_left 1 _) cc
      have hcons := processGlyphChangeBatchTick_conserve false cc
        maxCellUpdatesPerTick c s1
      generalize hr : processGlyphChangeBatchTick false cc
        maxCellUpdatesPerTick s1 = r at hcons ⊢
      obtain ⟨rs, rf⟩ := r
      dsimp only at hcons ⊢
      by_cases hcont : rs.tickIndex < rs.totalTicks
      · rw [if_pos hcont]
        dsimp only
        have hl := tickLoop_conserve cc maxCellUpdatesPerTick c
          rs.totalTicks
          { batches := rs.batches, tickIndex := rs.tickIndex,
            totalTicks := rs.totalTicks, timerActive := true }
        have hre : remainingCount c
            ({ batches := rs.batches, tickIndex := rs.tickIndex,
               totalTicks := rs.totalTicks, timerActive := true } : Sched) =
            remainingCount c rs := rfl
        rw [hre] at hl
        omega
      · rw [if_neg hcont]
        dsimp only
        have hl := tickLoop_conserve cc maxCellUpdatesPerTick c
          rs.totalTicks rs
        omega

/-- Per-tick cap and distinctness over a whole scheduler phase. -/
theorem runSchedule_per_tick (cc duration : Nat) (draws : List (List ℚ)) :
    ∀ l ∈ runSchedule cc duration draws,
    l.length ≤ maxCellUpdatesPerTick ∧ l.Nodup := by
  intro l hl
  unfold runSchedule at hl
  rcases List.mem_cons.mp hl with h1 | h1
  · subst h1
    unfold scheduleIndividualCellChanges
    by_cases hd : duration = 0
    · rw [if_pos hd]; simp
    · rw [if_neg hd]
      by_cases hcc : cc = 0
      · rw [if_pos hcc]; simp
      · rw [if_neg hcc]
        simp only
        have hf := processGlyphChangeBatchTick_fired false cc
          maxCellUpdatesPerTick
          { batches := buildBatches cc glyphChangeBatchIntervalMs
              (totalTicksFor duration glyphChangeBatchIntervalMs) draws,
            tickIndex := 0,
            totalTicks := totalTicksFor duration glyphChangeBatchIntervalMs,
            timerActive := false }
        generalize hr : processGlyphChangeBatchTick false cc
          maxCellUpdatesPerTick
          { batches := buildBatches cc glyphChangeBatchIntervalMs
              (totalTicksFor duration glyphChangeBatchIntervalMs) draws,
            tickIndex := 0,
            totalTicks := totalTicksFor duration glyphChangeBatchIntervalMs,
            timerActive := false } = r at hf ⊢
        obtain ⟨rs, rf⟩ := r
        dsimp only at hf ⊢
        by_cases hcont : rs.tickIndex < rs.totalTicks
        · rw [if_pos hcont]
          exact hf
        · rw [if_neg hcont]
          exact hf
  · exact tickLoop_per_tick cc maxCellUpdatesPerTick _ _ l h1

/-! ## Helper lemmas: the animation state machine -/

theorem processGlyphChangeBatchTick_paused (cc mp : Nat) (s : Sched) :
    (processGlyphChangeBatchTick true cc mp s).2 = [] := by
  unfold processGlyphChangeBatchTick
  by_cases h0 : s.totalTicks ≤ s.tickIndex
  · rw [if_pos h0]
  · rw [if_neg h0]
    dsimp only
    have hact : ¬ ((true = false) ∧ s.batches.getD s.tickIndex [] ≠ []) := by
      rintro ⟨h, _⟩
      simp at h
    rw [if_neg hact]
    by_cases hclear : s.totalTicks ≤ s.tickIndex + 1
    · rw [if_pos hclear]
    · rw [if_neg hclear]

/-- One machine step preserves the absence of the bootstrap timer and
either enters no phase (leaving the current state unchanged) or enters
exactly the successor of the current state. -/
theorem scheduleNextCycle_spec (m : GAMachine) (draws : List (List ℚ))
    (hi : TimerKind.initialHold ∉ m.pending) :
    TimerKind.initialHold ∉ (scheduleNextCycle m draws).1.pending ∧
    (((scheduleNextCycle m draws).2.1 = [] ∧
      (scheduleNextCycle m draws).1.currentState = m.currentState) ∨
     ((scheduleNextCycle m draws).2.1 = [nextAnimState m.currentState] ∧
      (scheduleNextCycle m draws).1.currentState =
        nextAnimState m.currentState)) := by
  unfold scheduleNextCycle
  by_cases hp : m.isPaused
  · rw [if_pos hp]
    exact ⟨hi, Or.inl ⟨rfl, rfl⟩⟩
  · rw [if_neg hp]
    by_cases hg : m.loopEnabled = false ∧ m.currentState = AnimState.zoomOut
    · rw [if_pos hg]
      exact ⟨hi, Or.inl ⟨rfl, rfl⟩⟩
    · rw [if_neg hg]
      cases hcs : m.currentState with
      | zoomOut =>
        refine ⟨?_, Or.inr ⟨rfl, rfl⟩⟩
        simp only [startZoomIn, schedChanges, List.mem_append, List.mem_singleton]
        rintro (h | h)
        · exact hi h
        · exact TimerKind.noConfusion h
      | zoomIn =>
        refine ⟨?_, Or.inr ⟨rfl, rfl⟩⟩
        simp only [startDwell, List.mem_append, List.mem_singleton]
        rintro (h | h)
        · exact hi h
        · exact TimerKind.noConfusion h
      | dwell =>
        refine ⟨?_, Or.inr ⟨rfl, rfl⟩⟩
        simp only [startZoomOut, schedChanges, List.mem_append, List.mem_singleton]
        rintro (h | h)
        · exact hi h
        · exact TimerKind.noConfusion h

theorem fireTimer_spec (m : GAMachine) (k : TimerKind)
    (draws : List (List ℚ)) (hi : TimerKind.initialHold ∉ m.pending) :
    TimerKind.initialHold ∉ (fireTimer m k draws).1.pending ∧
    (((fireTimer m k draws).2.1 = [] ∧
      (fireTimer m k draws).1.currentState = m.currentState) ∨
     ((fireTimer m k draws).2.1 = [nextAnimState m.currentState] ∧
      (fireTimer m k draws).1.currentState =
        nextAnimState m.currentState)) := by
  unfold fireTimer
  by_cases hk : k ∈ m.pending
  · rw [if_pos hk]
    dsimp only
    have hke : TimerKind.initialHold ∉ m.pending.erase k := by
      intro h
      exact hi (List.mem_of_mem_erase h)
    by_cases hp : m.isPaused = true
    · rw [if_pos hp]
      exact ⟨hke, Or.inl ⟨rfl, rfl⟩⟩
    · rw [if_neg hp]
      cases k with
      | initialHold => exact absurd hk hi
      | zoomInDone => exact scheduleNextCycle_spec _ draws hke
      | dwellDone => exact scheduleNextCycle_spec _ draws hke
      | dwellOutDone => exact scheduleNextCycle_spec _ draws hke
      | zoomOutDone =>
        dsimp only
        by_cases hl : m.loopEnabled = true
        · rw [if_pos hl]
          refine ⟨?_, Or.inl ⟨rfl, rfl⟩⟩
          simp only [schedChanges, List.mem_append, List.mem_singleton]
          rintro (h | h)
          · exact hke h
          · exact TimerKind.noConfusion h
        · rw [if_neg hl]
          exact ⟨hke, Or.inl ⟨rfl, rfl⟩⟩
  · rw [if_neg hk]
    exact ⟨hi, Or.inl ⟨rfl, rfl⟩⟩

theorem gaStep_spec (m : GAMachine) (e : GAEvent)
    (hi : TimerKind.initialHold ∉ m.pending) :
    TimerKind.initialHold ∉ (gaStep m e).1.pending ∧
    (((gaStep m e).2.1 = [] ∧ (gaStep m e).1.currentState = m.currentState) ∨
     ((gaStep m e).2.1 = [nextAnimState m.currentState] ∧
      (gaStep m e).1.currentState = nextAnimState m.currentState)) := by
  cases e with
  | fire k draws =>
    simp only [gaStep]
    exact fireTimer_spec m k draws hi
  | tick =>
    simp only [gaStep]
    by_cases ht : m.sched.timerActive = true
    · rw [if_pos ht]
      exact ⟨hi, Or.inl ⟨rfl, rfl⟩⟩
    · rw [if_neg ht]
      exact ⟨hi, Or.inl ⟨rfl, rfl⟩⟩
  | pauseEv =>
    simp only [gaStep]
    exact ⟨fun h => by simp at h, Or.inl ⟨trivial, trivial⟩⟩
  | resumeEv draws =>
    simp only [gaStep]
    by_cases hp : m.isPaused = true
    · rw [if_pos hp]
      exact scheduleNextCycle_spec _ draws hi
    · rw [if_neg hp]
      exact ⟨hi, Or.inl ⟨rfl, rfl⟩⟩

/-- Phases entered along any event trace follow the fixed cycle. -/
theorem gaRun_chain (evs : List GAEvent) :
    ∀ (m : GAMachine), TimerKind.initialHold ∉ m.pending →
    List.Chain' (fun p q => q = nextAnimState p)
      (m.currentState :: (gaRun m evs).2.1) := by
  induction evs with
  | nil => intro m _; simp [gaRun]
  | cons e evs ih =>
    intro m hi
    obtain ⟨hi2, hcase⟩ := gaStep_spec m e hi
    show List.Chain' _ (m.currentState ::
      ((gaStep m e).2.1 ++ (gaRun (gaStep m e).1 evs).2.1))
    rcases hcase with ⟨he, hs⟩ | ⟨he, hs⟩
    · rw [he, List.nil_append]
      have h := ih (gaStep m e).1 hi2
      rw [hs] at h
      exact h
    · rw [he, List.cons_append, List.nil_append]
      refine List.chain'_cons.mpr ⟨rfl, ?_⟩
      have h := ih (gaStep m e).1 hi2
      rw [hs] at h
      exact h

/-- After a pause, while no resume occurs, the machine stays paused with
no pending timers and produces no phase entries and no refreshes. -/
theorem pausedRun_silent (evs : List GAEvent)
    (hnr : ∀ d, GAEvent.resumeEv d ∉ evs) :
    ∀ (m : GAMachine), m.isPaused = true → m.pending = [] →
    (gaRun m evs).2.1 = [] ∧ (gaRun m evs).2.2 = [] := by
  induction evs with
  | nil => intro m _ _; exact ⟨rfl, rfl⟩
  | cons e evs ih =>
    intro m hp hpend
    have hnr2 : ∀ d, GAEvent.resumeEv d ∉ evs := by
      intro d h
      exact hnr d (List.mem_cons_of_mem e h)
    have hstep : (gaStep m e).1.isPaused = true ∧ (gaStep m e).1.pending = [] ∧
        (gaStep m e).2.1 = [] ∧ (gaStep m e).2.2 = [] := by
      cases e with
      | fire k draws =>
        simp only [gaStep]
        unfold fireTimer
        rw [if_neg (by rw [hpend]; exact List.not_mem_nil k)]
        exact ⟨hp, hpend, rfl, rfl⟩
      | tick =>
        simp only [gaStep]
        by_cases ht : m.sched.timerActive = true
        · rw [if_pos ht]
          refine ⟨hp, hpend, rfl, ?_⟩
          dsimp only
          rw [hp]
          exact processGlyphChangeBatchTick_paused _ _ _
        · rw [if_neg ht]
          exact ⟨hp, hpend, rfl, rfl⟩
      | pauseEv =>
        simp only [gaStep]
        exact ⟨trivial, trivial, trivial, trivial⟩
      | resumeEv draws =>
        exact absurd (List.mem_cons_self _ _) (hnr draws)
    obtain ⟨h1, h2, h3, h4⟩ := hstep
    have hrest := ih hnr2 (gaStep m e).1 h1 h2
    show ((gaStep m e).2.1 ++ (gaRun (gaStep m e).1 evs).2.1 = []) ∧
      ((gaStep m e).2.2 ++ (gaRun (gaStep m e).1 evs).2.2 = [])
    rw [h3, h4, hrest.1, hrest.2]
    exact ⟨rfl, rfl⟩

/-! ## Helper lemmas: avar inversion and sampling -/

theorem avarEpsilon_pos : (0 : ℚ) < avarEpsilon := by norm_num [avarEpsilon]

theorem chainGap_le :
    ∀ (l : List (ℚ × ℚ)) (x : ℚ × ℚ),
    List.Chain' (fun p q => p.2 + avarEpsilon ≤ q.2) (x :: l) →
    ∀ q ∈ l, x.2 + avarEpsilon ≤ q.2 := by
  intro l
  induction l with
  | nil => intro x _ q hq; simp at hq
  | cons y ys ih =>
    intro x hch q hq
    have hxy : x.2 + avarEpsilon ≤ y.2 := (List.chain'_cons.mp hch).1
    rcases List.mem_cons.mp hq with h | h
    · subst h; exact hxy
    · have hy := ih y (List.chain'_cons.mp hch).2 q h
      have := avarEpsilon_pos
      linarith

theorem clampUnit_eq_self (x : ℚ) (h1 : -1 ≤ x) (h2 : x ≤ 1) :
    clampUnit x = x := by
  unfold clampUnit
  rw [min_eq_right h2, max_eq_right h1]

/-- The interval scan inverts exactly at every knot of a chain whose
output coordinates are strictly increasing by at least the epsilon. -/
theorem invertAvarScan_knot :
    ∀ (l : List (ℚ × ℚ)) (prev q : ℚ × ℚ),
    ((q = prev ∧ l ≠ []) ∨ q ∈ l) →
    List.Chain' (fun a b => a.2 + avarEpsilon ≤ b.2) (prev :: l) →
    -1 ≤ q.1 → q.1 ≤ 1 →
    invertAvarScan q.2 prev l = some q.1 := by
  intro l
  induction l with
  | nil =>
    intro prev q hq _ _ _
    rcases hq with ⟨_, h⟩ | h
    · exact absurd rfl h
    · simp at h
  | cons cur rest ih =>
    intro prev q hq hch hb1 hb2
    have hpc : prev.2 + avarEpsilon ≤ cur.2 := (List.chain'_cons.mp hch).1
    have hε := avarEpsilon_pos
    have hdelta : ¬ |cur.2 - prev.2| < avarEpsilon := by
      rw [abs_of_pos (by linarith)]
      linarith
    rcases hq with ⟨hqp, _⟩ | hqm
    · subst hqp
      unfold invertAvarScan
      rw [if_neg (by
        rintro (h | h)
        · exact absurd h (not_lt.mpr (min_le_left _ _))
        · exact absurd h (not_lt.mpr (le_max_left _ _)))]
      rw [if_neg hdelta]
      rw [sub_self, zero_div, zero_mul, add_zero,
        clampUnit_eq_self _ hb1 hb2]
    · rcases List.mem_cons.mp hqm with hqc | hqr
      · subst hqc
        unfold invertAvarScan
        rw [if_neg (by
          rintro (h | h)
          · exact absurd h (not_lt.mpr (min_le_right _ _))
          · exact absurd h (not_lt.mpr (le_max_right _ _)))]
        rw [if_neg hdelta]
        have hne : q.2 - prev.2 ≠ 0 := by
          intro h
          have : prev.2 < q.2 := by linarith
          rw [sub_eq_zero] at h
          exact absurd h.symm (ne_of_lt this)
        rw [div_self hne, one_mul]
        have heq : prev.1 + (q.1 - prev.1) = q.1 := by ring
        rw [heq, clampUnit_eq_self _ hb1 hb2]
      · have hcq : cur.2 + avarEpsilon ≤ q.2 :=
          chainGap_le rest cur (List.chain'_cons.mp hch).2 q hqr
        unfold invertAvarScan
        rw [if_pos (Or.inr (by
          rw [max_eq_right (by linarith : prev.2 ≤ cur.2)]
          linarith))]
        exact ih cur q (Or.inr hqr) (List.chain'_cons.mp hch).2 hb1 hb2

theorem normalizedToAxisValue_bounds (v : ℚ) (axis : Axis)
    (h1 : axis.minValue ≤ axis.defaultValue)
    (h2 : axis.defaultValue ≤ axis.maxValue) :
    axis.minValue ≤ normalizedToAxisValue v axis ∧
      normalizedToAxisValue v axis ≤ axis.maxValue := by
  unfold normalizedToAxisValue clampUnit
  set c := max (-1) (min 1 v) with hc
  have hc1 : (-1 : ℚ) ≤ c := le_max_left _ _
  have hc2 : c ≤ 1 := max_le (by norm_num) (min_le_left _ _)
  by_cases h : c < 0
  · rw [if_pos h]
    constructor
    · nlinarith [mul_nonneg (sub_nonneg.mpr h1)
        (by linarith : (0 : ℚ) ≤ 1 + c)]
    · nlinarith [mul_nonneg (sub_nonneg.mpr h1) (by linarith : (0 : ℚ) ≤ -c)]
  · rw [if_neg h]
    push_neg at h
    constructor
    · nlinarith [mul_nonneg (sub_nonneg.mpr h2) h]
    · nlinarith [mul_nonneg (sub_nonneg.mpr h2)
        (by linarith : (0 : ℚ) ≤ 1 - c)]

/-! ## Helper lemmas: grid layout and features -/

theorem forceOddMin_odd (minDim required : ℤ) :
    (forceOddMin minDim required) % 2 = 1 := by
  unfold forceOddMin
  dsimp only
  split_ifs with h
  · omega
  · omega

theorem forceOddMin_ge (minDim required : ℤ) :
    minDim ≤ forceOddMin minDim required := by
  unfold forceOddMin
  dsimp only
  have := le_max_left minDim (required + overscanCells)
  split_ifs with h
  · omega
  · omega

theorem settingsEntriesAux_mem (coins : Nat → Bool) :
    ∀ (fs : List String) (i : Nat) (entry : String),
    entry ∈ settingsEntriesAux coins i fs →
    ∃ f ∈ fs, entry = featureEntry f true ∨ entry = featureEntry f false := by
  intro fs
  induction fs with
  | nil => intro i entry h; simp [settingsEntriesAux] at h
  | cons f fs ih =>
    intro i entry h
    rcases List.mem_cons.mp h with h1 | h1
    · refine ⟨f, List.mem_cons_self f fs, ?_⟩
      cases hcoin : coins i with
      | true => rw [h1, hcoin]; exact Or.inl rfl
      | false => rw [h1, hcoin]; exact Or.inr rfl
    · obtain ⟨g, hg, hge⟩ := ih (i + 1) entry h1
      exact ⟨g, List.mem_cons_of_mem f hg, hge⟩

/-! ## Claims -/

/-- C1 (amended): over a scheduler phase (`scheduleIndividualCellChanges`
followed by processing every tick), no tick refreshes more than
`maxCellUpdatesPerTick` distinct cells, and the total number of refreshes
delivered to each cell is at most — not equal to — the change count
originally drawn for it (same-tick duplicates are collapsed by
deduplication, and overflow past the final tick is dropped). -/
theorem C1_scheduler_delivery (cellCount duration : Nat)
    (draws : List (List ℚ)) (c : Nat) :
    (∀ l ∈ runSchedule cellCount duration draws,
      l.length ≤ maxCellUpdatesPerTick ∧ l.Nodup) ∧
    ((runSchedule cellCount duration draws).flatten).count c ≤
      drawnCount cellCount draws c :=
  ⟨runSchedule_per_tick cellCount duration draws,
   runSchedule_count_le cellCount duration draws c⟩

/-- Witness for C1: a concrete two-tick phase where the bound is realised. -/
theorem C1_scheduler_delivery_witness :
    [0] ∈ runSchedule 1 100 [[(0 : ℚ), 60]] ∧
    ([0] : List Nat).length ≤ maxCellUpdatesPerTick ∧ ([0] : List Nat).Nodup ∧
    ((runSchedule 1 100 [[(0 : ℚ), 60]]).flatten).count 0 ≤
      drawnCount 1 [[(0 : ℚ), 60]] 0 := by
  obtain ⟨h1, h2⟩ := C1_scheduler_delivery 1 100 [[(0 : ℚ), 60]] 0
  have hm : [0] ∈ runSchedule 1 100 [[(0 : ℚ), 60]] := by
    norm_num [runSchedule, scheduleIndividualCellChanges, buildBatches,
      totalTicksFor, scheduleCellChanges, tickIndexFor, pushAllAt,
      processGlyphChangeBatchTick, tickBody, jsDedup, tickLoop,
      clearGlyphChangeTimers, maxCellUpdatesPerTick,
      glyphChangeBatchIntervalMs, List.range_succ, List.foldl_append,
      List.getD]
  obtain ⟨hl, hn⟩ := h1 [0] hm
  exact ⟨hm, hl, hn, h2⟩

/-- Counterexample to C1 as stated: cell 0 draws two changes, both land in
the same tick, and only one refresh is delivered — deduplication drops the
second, so delivered refreshes do not equal the drawn count. -/
theorem C1_counterexample :
    drawnCount 1 [[(0 : ℚ), 0]] 0 = 2 ∧
    ((runSchedule 1 50 [[(0 : ℚ), 0]]).flatten).count 0 = 1 ∧
    ((runSchedule 1 50 [[(0 : ℚ), 0]]).flatten).count 0 ≠
      drawnCount 1 [[(0 : ℚ), 0]] 0 := by
  have hcount : ((runSchedule 1 50 [[(0 : ℚ), 0]]).flatten).count 0 = 1 := by
    norm_num [runSchedule, scheduleIndividualCellChanges, buildBatches,
      totalTicksFor, scheduleCellChanges, tickIndexFor, pushAllAt,
      processGlyphChangeBatchTick, tickBody, jsDedup, tickLoop,
      clearGlyphChangeTimers, maxCellUpdatesPerTick,
      glyphChangeBatchIntervalMs, List.range_succ, List.foldl_append,
      List.getD]
    all_goals decide
  have hdrawn : drawnCount 1 [[(0 : ℚ), 0]] 0 = 2 := by decide
  refine ⟨hdrawn, hcount, ?_⟩
  rw [hcount, hdrawn]
  omega

/-- C7: with duration 6000 and tick width 50 the scheduler builds 120
buckets; a cell drawing 7 changes has exactly 7 entries across those
buckets at scheduling time, each entry bucketed at
`min(totalTicks - 1, floor(delay / tickWidth))`. -/
theorem C7_bucket_distribution (cellCount c : Nat) (draws : List (List ℚ))
    (hc : c < cellCount) (h7 : (draws.getD c []).length = 7) :
    totalTicksFor 6000 glyphChangeBatchIntervalMs = 120 ∧
    (buildBatches cellCount glyphChangeBatchIntervalMs
      (totalTicksFor 6000 glyphChangeBatchIntervalMs) draws).length = 120 ∧
    ((buildBatches cellCount glyphChangeBatchIntervalMs
      (totalTicksFor 6000 glyphChangeBatchIntervalMs) draws).flatten).count c
      = 7 ∧
    ∀ d ∈ draws.getD c [], tickIndexFor glyphChangeBatchIntervalMs 120 d =
      min 119 (⌊d / (glyphChangeBatchIntervalMs : ℚ)⌋).toNat := by
  have ht : totalTicksFor 6000 glyphChangeBatchIntervalMs = 120 := by decide
  refine ⟨ht, ?_, ?_, ?_⟩
  · rw [buildBatches_length, ht]
  · rw [buildBatches_count glyphChangeBatchIntervalMs _ draws c
      (by rw [ht]; omega) cellCount]
    unfold drawnCount
    rw [if_pos hc, h7]
  · intro d _
    unfold tickIndexFor
    norm_num

/-- Witness for C7: one cell with seven concrete delays. -/
theorem C7_bucket_distribution_witness :
    (0 : Nat) < 1 ∧
    (([[ (0 : ℚ), 100, 2500, 3000, 3000, 5999, 5999 ]].getD 0 []).length = 7)
    ∧ ((buildBatches 1 glyphChangeBatchIntervalMs
      (totalTicksFor 6000 glyphChangeBatchIntervalMs)
      [[ (0 : ℚ), 100, 2500, 3000, 3000, 5999, 5999 ]]).flatten).count 0 = 7 := by
  have h := C7_bucket_distribution 1 0
    [[ (0 : ℚ), 100, 2500, 3000, 3000, 5999, 5999 ]] (by decide) (by decide)
  exact ⟨by decide, by decide, h.2.2.1⟩

/-- C2 (amended): with looping enabled, phases are entered strictly in
the cyclic order ZoomOut, ZoomIn, Dwell, ZoomOut, …, and pause() followed
by resume() neither skips nor repeats a phase in that order; but resume()
advances to the next phase of the cycle (cutting the current phase short)
rather than restarting the current phase as if freshly entered. -/
theorem C2_phase_cycle (m : GAMachine) (evs : List GAEvent)
    (hloop : m.loopEnabled = true)
    (hboot : TimerKind.initialHold ∉ m.pending) :
    List.Chain' (fun p q => q = nextAnimState p)
      (m.currentState :: (gaRun m evs).2.1) ∧
    (∀ p : AnimState, nextAnimState p ≠ p) := by
  refine ⟨gaRun_chain evs m hboot, ?_⟩
  intro p
  cases p
  · simp [nextAnimState]
  · simp [nextAnimState]
  · simp [nextAnimState]

/-- Witness for C2: a full cycle driven by concrete timer events. -/
theorem C2_phase_cycle_witness :
    ({ currentState := AnimState.zoomOut, isPaused := false, loopEnabled := true, pending := [TimerKind.dwellOutDone], sched := { batches := [], tickIndex := 0, totalTicks := 0, timerActive := false }, cellCount := 0 } : GAMachine).loopEnabled = true ∧
    TimerKind.initialHold ∉
      ({ currentState := AnimState.zoomOut, isPaused := false, loopEnabled := true, pending := [TimerKind.dwellOutDone], sched := { batches := [], tickIndex := 0, totalTicks := 0, timerActive := false }, cellCount := 0 } : GAMachine).pending ∧
    List.Chain' (fun p q => q = nextAnimState p)
      (({ currentState := AnimState.zoomOut, isPaused := false, loopEnabled := true, pending := [TimerKind.dwellOutDone], sched := { batches := [], tickIndex := 0, totalTicks := 0, timerActive := false }, cellCount := 0 } : GAMachine).currentState ::
        (gaRun { currentState := AnimState.zoomOut, isPaused := false, loopEnabled := true, pending := [TimerKind.dwellOutDone], sched := { batches := [], tickIndex := 0, totalTicks := 0, timerActive := false }, cellCount := 0 }
          [GAEvent.fire TimerKind.dwellOutDone [],
           GAEvent.fire TimerKind.zoomInDone [],
           GAEvent.fire TimerKind.dwellDone []]).2.1) := by
  refine ⟨rfl, by decide, ?_⟩
  exact (C2_phase_cycle _ _ rfl (by decide)).1

/-- Counterexample to C2 as stated: paused mid-ZoomIn, resume() enters
Dwell — the next phase — instead of restarting ZoomIn as if freshly
entered. -/
theorem C2_counterexample :
    (gaRun { currentState := AnimState.zoomIn, isPaused := false, loopEnabled := true, pending := [TimerKind.zoomInDone], sched := { batches := [], tickIndex := 0, totalTicks := 0, timerActive := false }, cellCount := 0 }
      [GAEvent.pauseEv, GAEvent.resumeEv []]).2.1 = [AnimState.dwell] ∧
    AnimState.dwell ≠ AnimState.zoomIn := by
  refine ⟨by decide, by decide⟩

/-- C5: pause() cancels the scheduler interval, its buckets and every
pending state-transition timer together, and from then on — until a
resume — no tick refreshes any cell and no phase transition fires. -/
theorem C5_pause_hard_cut (m : GAMachine) (evs : List GAEvent)
    (hnr : ∀ d, GAEvent.resumeEv d ∉ evs) :
    (gaStep m GAEvent.pauseEv).1.isPaused = true ∧
    (gaStep m GAEvent.pauseEv).1.sched.timerActive = false ∧
    (gaStep m GAEvent.pauseEv).1.sched.batches = [] ∧
    (gaStep m GAEvent.pauseEv).1.pending = [] ∧
    (gaRun (gaStep m GAEvent.pauseEv).1 evs).2.1 = [] ∧
    (gaRun (gaStep m GAEvent.pauseEv).1 evs).2.2 = [] := by
  have h := pausedRun_silent evs hnr (gaStep m GAEvent.pauseEv).1 rfl rfl
  exact ⟨rfl, rfl, rfl, rfl, h.1, h.2⟩

/-- Witness for C5: pausing a machine with a live scheduler and pending
timers, then firing stale timers and ticks. -/
theorem C5_pause_hard_cut_witness :
    (∀ d, GAEvent.resumeEv d ∉
      [GAEvent.tick, GAEvent.fire TimerKind.zoomInDone [], GAEvent.tick]) ∧
    (gaRun (gaStep { currentState := AnimState.zoomIn, isPaused := false, loopEnabled := true, pending := [TimerKind.zoomInDone], sched := { batches := [[0, 1], [2]], tickIndex := 0, totalTicks := 2, timerActive := true }, cellCount := 3 } GAEvent.pauseEv).1
      [GAEvent.tick, GAEvent.fire TimerKind.zoomInDone [], GAEvent.tick]).2.1
      = [] ∧
    (gaRun (gaStep { currentState := AnimState.zoomIn, isPaused := false, loopEnabled := true, pending := [TimerKind.zoomInDone], sched := { batches := [[0, 1], [2]], tickIndex := 0, totalTicks := 2, timerActive := true }, cellCount := 3 } GAEvent.pauseEv).1
      [GAEvent.tick, GAEvent.fire TimerKind.zoomInDone [], GAEvent.tick]).2.2
      = [] := by
  have hnr : ∀ d, GAEvent.resumeEv d ∉
      [GAEvent.tick, GAEvent.fire TimerKind.zoomInDone [], GAEvent.tick] := by
    intro d h
    rcases List.mem_cons.mp h with h1 | h1
    · exact GAEvent.noConfusion h1
    rcases List.mem_cons.mp h1 with h2 | h2
    · exact GAEvent.noConfusion h2
    rcases List.mem_cons.mp h2 with h3 | h3
    · exact GAEvent.noConfusion h3
    · simp at h3
  have h := C5_pause_hard_cut { currentState := AnimState.zoomIn, isPaused := false, loopEnabled := true, pending := [TimerKind.zoomInDone], sched := { batches := [[0, 1], [2]], tickIndex := 0, totalTicks := 2, timerActive := true }, cellCount := 3 } _ hnr
  exact ⟨hnr, h.2.2.2.2.1, h.2.2.2.2.2⟩

/-- C3 (amended): for a warp map of at least two pairs whose coordinates
lie in `[-1,1]` and whose output coordinates increase by at least the
degeneracy threshold `1e-9` between consecutive pairs, inverting the warp
at any pair's output coordinate returns exactly that pair's input
coordinate. -/
theorem C3_invert_at_knots (pairs : List (ℚ × ℚ)) (p : ℚ × ℚ)
    (hlen : 2 ≤ pairs.length) (hmem : p ∈ pairs)
    (hbounds : ∀ q ∈ pairs, -1 ≤ q.1 ∧ q.1 ≤ 1 ∧ -1 ≤ q.2 ∧ q.2 ≤ 1)
    (hsep : List.Chain' (fun a b => a.2 + avarEpsilon ≤ b.2) pairs) :
    invertAvar pairs p.2 = p.1 := by
  match pairs, hlen, hmem, hbounds, hsep with
  | p0 :: p1 :: rest, _, hmem, hbounds, hsep =>
    have hb := hbounds p hmem
    unfold invertAvar
    dsimp only
    rw [clampUnit_eq_self _ hb.2.2.1 hb.2.2.2]
    have hscan : invertAvarScan p.2 p0 (p1 :: rest) = some p.1 := by
      rcases List.mem_cons.mp hmem with h0 | h0
      · exact invertAvarScan_knot (p1 :: rest) p0 p
          (Or.inl ⟨h0, List.cons_ne_nil p1 rest⟩) hsep hb.1 hb.2.1
      · exact invertAvarScan_knot (p1 :: rest) p0 p (Or.inr h0) hsep
          hb.1 hb.2.1
    rw [hscan]

/-- Witness for C3: the identity warp map at the knot `(0, 0)`. -/
theorem C3_invert_at_knots_witness :
    2 ≤ ([((-1 : ℚ), (-1 : ℚ)), (0, 0), (1, 1)] : List (ℚ × ℚ)).length ∧
    ((0 : ℚ), (0 : ℚ)) ∈ ([((-1 : ℚ), (-1 : ℚ)), (0, 0), (1, 1)] : List (ℚ × ℚ)) ∧
    invertAvar [((-1 : ℚ), (-1 : ℚ)), (0, 0), (1, 1)] 0 = 0 := by
  refine ⟨by decide, by decide, ?_⟩
  have h := C3_invert_at_knots [((-1 : ℚ), (-1 : ℚ)), (0, 0), (1, 1)]
    ((0 : ℚ), (0 : ℚ)) (by decide) (by decide)
    (by intro q hq; fin_cases hq
        · norm_num
        · norm_num
        · norm_num)
    (by refine List.chain'_cons.mpr ⟨by norm_num [avarEpsilon], ?_⟩
        refine List.chain'_cons.mpr ⟨by norm_num [avarEpsilon], ?_⟩
        exact List.chain'_singleton _)
  exact h

/-- Counterexample to C3 as stated: a warp map with a flat (degenerate)
segment between output 0.5 and 0.5.  At the upper knot `(0.5, 0.5)` the
scan hits the earlier interval `[-1, 0.5]` first and returns input 0, not
0.5, so the inverse is not exact at every knot point. -/
theorem C3_counterexample :
    ((1 / 2 : ℚ), (1 / 2 : ℚ)) ∈
      ([((-1 : ℚ), (-1 : ℚ)), (0, 1 / 2), (1 / 2, 1 / 2), (1, 1)] :
        List (ℚ × ℚ)) ∧
    invertAvar [((-1 : ℚ), (-1 : ℚ)), (0, 1 / 2), (1 / 2, 1 / 2), (1, 1)]
      (1 / 2) = 0 ∧
    (0 : ℚ) ≠ 1 / 2 := by
  refine ⟨by norm_num, ?_, by norm_num⟩
  have hclamp : clampUnit (1 / 2 : ℚ) = 1 / 2 := by norm_num [clampUnit]
  have hscan : invertAvarScan (1 / 2 : ℚ) ((-1 : ℚ), (-1 : ℚ))
      [((0 : ℚ), (1 / 2 : ℚ)), (1 / 2, 1 / 2), (1, 1)] = some 0 := by
    unfold invertAvarScan
    rw [if_neg (by norm_num), if_neg (by norm_num [avarEpsilon, le_abs])]
    norm_num [clampUnit]
  unfold invertAvar
  dsimp only
  rw [hclamp, hscan]

/-- C9: for an axis with `min ≤ default ≤ max`, every sampled value lies
in `[min, max]`: the uniform fallback draws inside the interval directly,
and the warp-inverting path is clamped to `[-1,1]` by
`normalizedToAxisValue` before mapping into the two half-intervals. -/
theorem C9_sample_in_range (samplers : List AxisSampler) (axis : Axis)
    (r : ℚ) (h1 : axis.minValue ≤ axis.defaultValue)
    (h2 : axis.defaultValue ≤ axis.maxValue)
    (hr0 : 0 ≤ r) (hr1 : r ≤ 1) :
    axis.minValue ≤ sampleAxisValue samplers axis r ∧
      sampleAxisValue samplers axis r ≤ axis.maxValue := by
  have hmm : axis.minValue ≤ axis.maxValue := le_trans h1 h2
  have huni : axis.minValue ≤ axis.minValue + r * (axis.maxValue - axis.minValue) ∧
      axis.minValue + r * (axis.maxValue - axis.minValue) ≤ axis.maxValue := by
    constructor
    · nlinarith [mul_nonneg hr0 (sub_nonneg.mpr hmm)]
    · nlinarith [mul_nonneg (by linarith : (0 : ℚ) ≤ 1 - r)
        (sub_nonneg.mpr hmm)]
  unfold sampleAxisValue
  cases hfind : samplers.find? (fun s => s.tag == axis.tag) with
  | none => exact huni
  | some sampler =>
    dsimp only
    by_cases hc : sampler.hasNonLinearAvar = false ∨
        sampler.avarPairs.length < 2
    · rw [if_pos hc]
      exact huni
    · rw [if_neg hc]
      exact normalizedToAxisValue_bounds _ axis h1 h2

/-- Witness for C9: the uniform fallback on a weight axis at `r = 1/2`. -/
theorem C9_sample_in_range_witness :
    ((100 : ℚ) ≤ 400 ∧ (400 : ℚ) ≤ 900 ∧ (0 : ℚ) ≤ 1 / 2 ∧ (1 / 2 : ℚ) ≤ 1) ∧
    (100 : ℚ) ≤ sampleAxisValue []
      { tag := "wght", minValue := 100, defaultValue := 400, maxValue := 900 }
      (1 / 2) ∧
    sampleAxisValue []
      { tag := "wght", minValue := 100, defaultValue := 400, maxValue := 900 }
      (1 / 2) ≤ 900 := by
  have h := C9_sample_in_range []
    { tag := "wght", minValue := 100, defaultValue := 400, maxValue := 900 }
    (1 / 2) (by norm_num) (by norm_num) (by norm_num) (by norm_num)
  exact ⟨⟨by norm_num, by norm_num, by norm_num, by norm_num⟩, h.1, h.2⟩

/-- C4: for every `populate()` call with a positive zoom-out scale, the
grid dimensions are odd and at least the configured minimum 13, the
number of created cells equals `gridCols * gridRows`, and the container
dimensions equal grid size times cell size exactly. -/
theorem C4_populate_invariants (vw vh s : ℚ) (hs : 0 < s) :
    (populate vw vh s).gridCols % 2 = 1 ∧
    (populate vw vh s).gridRows % 2 = 1 ∧
    13 ≤ (populate vw vh s).gridCols ∧
    13 ≤ (populate vw vh s).gridRows ∧
    (populate vw vh s).cellCount =
      (populate vw vh s).gridCols * (populate vw vh s).gridRows ∧
    ((populate vw vh s).cells).length = (populate vw vh s).cellCount.toNat ∧
    (populate vw vh s).containerWidth =
      (populate vw vh s).gridCols * (populate vw vh s).cellWidth ∧
    (populate vw vh s).containerHeight =
      (populate vw vh s).gridRows * (populate vw vh s).cellHeight := by
  refine ⟨forceOddMin_odd _ _, forceOddMin_odd _ _, forceOddMin_ge _ _,
    forceOddMin_ge _ _, rfl, ?_, rfl, rfl⟩
  exact List.length_replicate _ _

/-- Witness for C4: a 1920x1080 viewport at the overview scale 0.19. -/
theorem C4_populate_invariants_witness :
    (0 : ℚ) < 19 / 100 ∧
    (populate 1920 1080 (19 / 100)).gridCols % 2 = 1 ∧
    13 ≤ (populate 1920 1080 (19 / 100)).gridCols ∧
    (populate 1920 1080 (19 / 100)).cellCount =
      (populate 1920 1080 (19 / 100)).gridCols *
        (populate 1920 1080 (19 / 100)).gridRows := by
  have h := C4_populate_invariants 1920 1080 (19 / 100) (by norm_num)
  exact ⟨by norm_num, h.1, h.2.2.1, h.2.2.2.2.1⟩

/-- C8: at `zoomOutScale = 0.19` with `cellWidthFactor = 0.5` and minimum
13, the required column count is `ceil(1.06 / (0.19 * 0.5)) = 12` and the
final (clamped, odd-forced) column count is 13. -/
theorem C8_example_dimensions :
    requiredColsFor (19 / 100) = 12 ∧
    (populate 1920 1080 (19 / 100)).gridCols = 13 := by
  have h12 : requiredColsFor (19 / 100) = 12 := by
    unfold requiredColsFor minCoverageFactor cellWidthFactor
    rw [Int.ceil_eq_iff]
    constructor
    · norm_num
    · norm_num
  refine ⟨h12, ?_⟩
  show forceOddMin minGridCols (requiredColsFor (19 / 100)) = 13
  rw [h12]
  decide

/-- C6 (amended): with zero cells the zoom target defaults to offsets
`{0,0}` with zero cell geometry and no error is raised; but the fit scale
falls back to `zoomScale.max = 1.0`, so the zoom writes the identity
transform `translate(0,0) scale(1)` rather than leaving the transform
unchanged. -/
theorem C6_zero_cells (vw vh : ℚ) (idx : Nat) :
    pickRandomTarget vw vh (getRandomCell [] idx) =
      { x := 0, y := 0, cellWidth := 0, cellHeight := 0 } ∧
    calculateCellFitScale vw (pickRandomTarget vw vh (getRandomCell [] idx)) =
      zoomScaleMax ∧
    applyZoomTransform 0 0
      (calculateCellFitScale vw (pickRandomTarget vw vh (getRandomCell [] idx)))
      = { translateX := 0, translateY := 0, scale := 1 } := by
  refine ⟨rfl, rfl, ?_⟩
  show applyZoomTransform 0 0 zoomScaleMax = _
  unfold applyZoomTransform zoomScaleMax
  norm_num

/-- Counterexample to C6 as stated: starting from the overview transform
(scale 0.12), the zero-cell zoom writes a different transform (scale 1),
so the transform is not left unchanged. -/
theorem C6_counterexample :
    applyZoomTransform 0 0
      (calculateCellFitScale 1920 (pickRandomTarget 1920 1080 (getRandomCell [] 0)))
      ≠ applyZoomTransform 0 0 zoomScaleMin ∧
    (applyZoomTransform 0 0 zoomScaleMin).scale = 12 / 100 ∧
    (applyZoomTransform 0 0
      (calculateCellFitScale 1920 (pickRandomTarget 1920 1080 (getRandomCell [] 0)))).scale = 1 := by
  refine ⟨?_, ?_, rfl⟩
  · intro h
    have := congrArg Transform.scale h
    norm_num [applyZoomTransform, calculateCellFitScale, pickRandomTarget,
      getRandomCell, zoomScaleMin, zoomScaleMax] at this
  · rfl

/-- C10 (amended): for every non-empty feature list with no discretionary
feature, `randomizeFeatures` returns `'normal'`; and every entry of the
emitted settings string is built from a feature that matches the
discretionary pattern (an empty feature list returns the empty string,
not `'normal'`). -/
theorem C10_discretionary_only (features : List String) (coins : Nat → Bool) :
    (features ≠ [] →
      features.filter (fun f => isDiscretionaryFeature f) = [] →
      randomizeFeatures features coins = "normal") ∧
    (∀ entry ∈ settingsEntries features coins,
      ∃ f, isDiscretionaryFeature f = true ∧ f ∈ features ∧
        (entry = featureEntry f true ∨ entry = featureEntry f false)) := by
  constructor
  · intro hne hfil
    unfold randomizeFeatures
    rw [if_neg (by simpa [List.isEmpty_iff] using hne),
      if_pos (by simpa [List.isEmpty_iff] using hfil)]
  · intro entry hentry
    obtain ⟨f, hf, hfe⟩ := settingsEntriesAux_mem coins _ 0 entry hentry
    exact ⟨f, (List.mem_filter.mp hf).2, (List.mem_filter.mp hf).1, hfe⟩

/-- Witness for C10: `["liga"]` yields `'normal'`; in
`["liga", "ss01"]` the only emitted entry comes from the discretionary
`ss01`. -/
theorem C10_discretionary_only_witness :
    randomizeFeatures ["liga"] (fun _ => true) = "normal" ∧
    featureEntry "ss01" true ∈ settingsEntries ["liga", "ss01"] (fun _ => true) ∧
    (∃ f, isDiscretionaryFeature f = true ∧ f ∈ ["liga", "ss01"] ∧
      (featureEntry "ss01" true = featureEntry f true ∨
       featureEntry "ss01" true = featureEntry f false)) := by
  refine ⟨?_, ?_, ?_⟩
  · exact (C10_discretionary_only ["liga"] (fun _ => true)).1
      (by decide) (by decide)
  · decide
  · exact (C10_discretionary_only ["liga", "ss01"] (fun _ => true)).2
      (featureEntry "ss01" true) (by decide)

/-- Counterexample to C10 as stated: the empty feature list contains no
discretionary feature, yet `randomizeFeatures` returns the empty string
rather than `'normal'`. -/
theorem C10_counterexample :
    randomizeFeatures [] (fun _ => true) = "" ∧
    ([] : List String).filter (fun f => isDiscretionaryFeature f) = [] ∧
    randomizeFeatures [] (fun _ => true) ≠ "normal" := by
  refine ⟨rfl, rfl, by decide⟩

end TurboTiler

